import Mathlib

/-!
Shallow embedding of `src/generate_ics.py` (Beijing tail-number restriction
ICS generator).

Modelling conventions:
* Dates are proleptic Gregorian ordinals (Python `date.toordinal()`), as `Nat`.
  Ordinal 1 (0001-01-01) is a Monday, so Python's `date.weekday()`
  (Mon = 0 .. Sun = 6) is `(n + 6) % 7`.
* Python dicts keyed by dates are association lists `List (Nat × _)`; a run of
  the script has pairwise-distinct keys (dict semantics), which appears as a
  `Nodup` hypothesis where it matters.
* The external `hashlib.md5` digest, `date.isoformat()` and `strftime("%Y%m%d")`
  renderings come from the Python standard library (not part of this
  repository) and are modelled as abstract `String`-valued function parameters
  `hash`, `iso`, `ymd`; properties that need them collision-free take explicit
  injectivity hypotheses.
* The `lunardate` library conversion (also external) is an abstract oracle
  `Int → Nat → Nat → Except Unit GDate`; a Python exception is `Except.error`.
* `datetime.utcnow()` (the DTSTAMP of emitted events) is an explicit `now`
  parameter of the emission step, so time-dependence is visible in the model.
-/

/-- Python `date.weekday()` on an ordinal: Mon = 0 .. Sun = 6. -/
def pyWeekday (n : Nat) : Nat := (n + 6) % 7

/-- One entry of `ROTATIONS` (from `read_rotations_yaml`): an inclusive date
span `start..stop` (source field name `end` is a Lean keyword) and a weekday
key (0..4) to restricted digit pair map, as an association list. -/
structure RotationRule where
  start : Nat
  stop : Nat
  map : List (Nat × Nat × Nat)
deriving DecidableEq

/-- Model of `rotation_for`: first rule in table order whose inclusive span contains `d`. -/
def rotation_for (rotations : List RotationRule) (d : Nat) : Option RotationRule :=
  rotations.find? (fun ro => decide (ro.start ≤ d) && decide (d ≤ ro.stop))

/-- Model of `is_workday`: adjusted (compensatory) workdays win, then statutory
holidays, then the plain Monday-Friday test. -/
def is_workday (adjusted : List Nat) (holidays : List (Nat × String)) (d : Nat) : Bool :=
  if d ∈ adjusted then true
  else if (holidays.lookup d).isSome then false
  else decide (pyWeekday d < 5)

/-- Rotation weekday key of the main loop: natural weekday, remapped to 4
(Friday) when `d` is an adjusted workday whose natural weekday is Sat/Sun. -/
def rotKey (adjusted : List Nat) (d : Nat) : Nat :=
  let key := pyWeekday d
  if d ∈ adjusted ∧ key > 4 then 4 else key

/-- Inner `while` loop of the block numbering in `fetch_cn_calendar`: `first`
is `ds[i]`, `last` is `ds[j]`; a date extends the current run iff it is
`last + 1`; a finished run is emitted as `(first, (last - first) + 1)`
(start date, `total`). -/
def splitAux (first last : Nat) : List Nat → List (Nat × Nat)
  | [] => [(first, last - first + 1)]
  | e :: rest =>
      if e = last + 1 then splitAux first e rest
      else (first, last - first + 1) :: splitAux e e rest

/-- Outer loop of the block numbering: split a sorted date list into blocks
`(start, total)`. -/
def splitBlocks : List Nat → List (Nat × Nat)
  | [] => []
  | d :: ds => splitAux d d ds

/-- Dates covered by one block: `start + k` for `k < total` (the
`ds[i] + timedelta(days=k)` assignments). -/
def blockDates (b : Nat × Nat) : List Nat :=
  (List.range b.2).map (fun k => b.1 + k)

/-- Entries of `day_idx` contributed by one holiday name: for every block,
date `start + k` maps to `(name, k + 1, total)`. -/
def dayIdx (nm : String) (ds : List Nat) : List (Nat × String × Nat × Nat) :=
  (splitBlocks ds).flatMap
    (fun b => (List.range b.2).map (fun k => (b.1 + k, nm, k + 1, b.2)))

/-- Python `ds.sort()` on the per-name date list. -/
def sortNat (l : List Nat) : List Nat := List.insertionSort (· ≤ ·) l

/-- Whole `day_idx` construction of `fetch_cn_calendar`: group the holiday
dict by name (`by_name`), sort each date list, split into consecutive blocks
and number them. -/
def buildDayIdx (holidays : List (Nat × String)) : List (Nat × String × Nat × Nat) :=
  ((holidays.map Prod.snd).dedup).flatMap
    (fun nm => dayIdx nm (sortNat ((holidays.filter (fun p => p.2 == nm)).map Prod.fst)))

/-- Model of `holiday_info`: `(True, *HOLIDAY_IDX[d])` when present, else
`(False, None, None, None)`. -/
def holiday_info (idx : List (Nat × String × Nat × Nat)) (d : Nat) :
    Bool × Option String × Option Nat × Option Nat :=
  match idx.lookup d with
  | some (nm, i, t) => (true, some nm, some i, some t)
  | none => (false, none, none, none)

/-- Python `sorted()` over the per-date festival name set. -/
def sortStr (l : List String) : List String :=
  List.insertionSort (fun a b : String => ¬b < a) l

/-- The `fest_names` computation of the main loop: empty unless the date is
not a statutory holiday and the festival layer has names for it. -/
def fest_names_for (isH : Bool) (fest : List (Nat × List String)) (d : Nat) : String :=
  if isH = false ∧ (fest.lookup d).isSome = true then
    String.intercalate (" / ") (sortStr ((fest.lookup d).getD []))
  else ""

/-- Model of `uid_for`: md5 of "bjxx-<iso date>-<tag>" plus a fixed suffix; the md5
digest and the iso rendering are the abstract parameters `hash` and `iso`. -/
def uid_for (hash : String → String) (iso : Nat → String) (d : Nat) (s : String) : String :=
  hash (("bjxx-") ++ (iso d ++ (("-") ++ s))) ++ ("@beijing-xianxing")

/-- Model of `fmt_dt`: a local timestamp is (date ordinal, hour, minute); the textual
`%Y%m%dT%H%M00` rendering happens at line-emission time. -/
def fmt_dt (d h m : Nat) : Nat × Nat × Nat := (d, h, m)

def DAYS_AHEAD : Nat := 270

def TZID : String := "Asia/Shanghai"

def CAL_NAME : String := "北京尾号限行 + 放假/节日/二十四节气提醒（节假日自动）"

def CAL_DESC : String := "工作日限行（含调休上班）；周末/法定节假日不限行。节假日与调休自动同步；二十四节气、国内节日与“洋节”自动提示；若与放假重合，仅显示放假。范围：五环内（不含），7:00–20:00，字母按0。"

/-- Indexing of `weekday_cn`: the string "一二三四五六日" indexed by weekday. -/
def weekdayCn (k : Nat) : String :=
  [("一"), ("二"), ("三"), ("四"), ("五"), ("六"), ("日")].getD k ("")

/-- Static tail of a matched workday DESCRIPTION. -/
def matchedTail : String := "\n\n执行规则：工作日 7:00–20:00；范围：五环内（不含）；字母按0。\n来源：北京交管（轮换）；Timor节假日API；lunar-python（二十四节气）；自定义节日库。"

/-- Static tail of an unmatched workday DESCRIPTION (the per-date
"rotation not matched" notice). -/
def unmatchedTail : String := "\n\n提示：未匹配到当期轮换区间，请更新 rotations.yml。"

/-- Static tail of a non-workday DESCRIPTION. -/
def freeTail : String := "\n\n说明：非工作日不执行尾号限行；工作日 7:00–20:00 于五环内（不含）执行，字母按0。"

/-- The per-day decision record of the spec's Day Resolver (§3 DayDecision),
as computed by the main loop. -/
structure DayDecision where
  date : Nat
  isWorkday : Bool
  restriction : Option (Nat × Nat)
  rotationMatched : Bool
  holidayName : Option String
  holidayIdx : Option Nat
  holidayTotal : Option Nat
  compensatory : Bool
  festNames : String
deriving DecidableEq

/-- One emitted VEVENT, structurally. -/
structure VEvent where
  uid : String
  stamp : String
  startTime : Nat × Nat × Nat
  endTime : Nat × Nat × Nat
  summary : String
  descr : String
  location : String
deriving DecidableEq

/-- The four datasets the main loop reads (rotation table, holiday dict,
adjusted-workday set, festival layer). -/
structure Providers where
  rotations : List RotationRule
  holidays : List (Nat × String)
  adjusted : List Nat
  fest : List (Nat × List String)
deriving DecidableEq

/-- Body of the main loop for one date `d`: the decision record plus the
emitted VEVENT. Mirrors `generate_ics.py` lines 194-266. -/
def dayOutput (hash : String → String) (iso : Nat → String) (P : Providers)
    (idx : List (Nat × String × Nat × Nat)) (now : String) (d : Nat) :
    DayDecision × VEvent :=
  let wcn := weekdayCn (pyWeekday d)
  let hi := holiday_info idx d
  let is_h := hi.1
  let hname := hi.2.1.getD ("")
  let hidx := hi.2.2.1.getD 0
  let htot := hi.2.2.2.getD 0
  let hdisp := hname ++ ((" ") ++ (Nat.repr htot ++ (("天假 ") ++ (Nat.repr hidx ++ (("/") ++ Nat.repr htot)))))
  let fest_names := fest_names_for is_h P.fest d
  let festDisp := if is_h then ("无") else (if fest_names = ("") then ("无") else fest_names)
  let line2 := ("节日/节气：") ++ festDisp
  let line3 := ("假期：") ++ (if is_h then hdisp else ("无"))
  if is_workday P.adjusted P.holidays d then
    let key := rotKey P.adjusted d
    match (rotation_for P.rotations d).bind (fun r => r.map.lookup key) with
    | some ab =>
      let summary := ("北京尾号限行｜周") ++ (wcn ++ ((" ") ++ (Nat.repr ab.1 ++ (("/") ++ Nat.repr ab.2))))
      let line1 := ("北京尾号限行：今日限行：") ++ (Nat.repr ab.1 ++ (("&") ++ Nat.repr ab.2))
      let desc := (line1 ++ (("\n") ++ (line2 ++ (("\n") ++ line3)))) ++ matchedTail
      (⟨d, true, some (ab.1, ab.2), true, hi.2.1, hi.2.2.1, hi.2.2.2,
         decide (d ∈ P.adjusted), fest_names⟩,
       ⟨uid_for hash iso d ("work"), now, fmt_dt d 7 0, fmt_dt d 20 0,
         summary, desc, ("北京（五环内，不含）")⟩)
    | none =>
      let summary := ("北京尾号限行｜周") ++ (wcn ++ ("（轮换未匹配）"))
      let line1 := ("北京尾号限行：今日限行：未知（轮换未匹配）")
      let desc := (line1 ++ (("\n") ++ (line2 ++ (("\n") ++ line3)))) ++ unmatchedTail
      (⟨d, true, none, false, hi.2.1, hi.2.2.1, hi.2.2.2,
         decide (d ∈ P.adjusted), fest_names⟩,
       ⟨uid_for hash iso d ("work"), now, fmt_dt d 7 0, fmt_dt d 20 0,
         summary, desc, ("北京（五环内，不含）")⟩)
  else
    let reason := if is_h then hdisp else ("周末")
    let summary := ("不限行｜") ++ reason
    let line1 := ("北京尾号限行：不限行（") ++ (reason ++ ("）"))
    let desc := (line1 ++ (("\n") ++ (line2 ++ (("\n") ++ line3)))) ++ freeTail
    (⟨d, false, none, false, hi.2.1, hi.2.2.1, hi.2.2.2,
       decide (d ∈ P.adjusted), fest_names⟩,
     ⟨uid_for hash iso d ("free"), now, fmt_dt d 0 0, fmt_dt d 23 59,
       summary, desc, ("北京（全市）")⟩)

/-- The whole main loop: one decision/event pair per date of
`[today, today + N]`, with `HOLIDAY_IDX` built once up front. -/
def runOutputs (hash : String → String) (iso : Nat → String) (P : Providers)
    (now : String) (today N : Nat) : List (DayDecision × VEvent) :=
  (List.range (N + 1)).map
    (fun i => dayOutput hash iso P (buildDayIdx P.holidays) now (today + i))

/-- Two-digit rendering of hour/minute in `fmt_dt`. -/
def pad2 (n : Nat) : String := if n < 10 then ("0") ++ Nat.repr n else Nat.repr n

/-- Textual rendering of a structural timestamp (the date part via the
abstract `%Y%m%d` formatter `ymd`). -/
def fmtTimeStr (ymd : Nat → String) (t : Nat × Nat × Nat) : String :=
  ymd t.1 ++ (("T") ++ (pad2 t.2.1 ++ (pad2 t.2.2 ++ ("00"))))

/-- The lines of one VEVENT in the output file. -/
def eventLines (ymd : Nat → String) (ev : VEvent) : List String :=
  [("BEGIN:VEVENT"),
   ("UID:") ++ ev.uid,
   ("DTSTAMP:") ++ ev.stamp,
   ("DTSTART;TZID=") ++ (TZID ++ ((":") ++ fmtTimeStr ymd ev.startTime)),
   ("DTEND;TZID=") ++ (TZID ++ ((":") ++ fmtTimeStr ymd ev.endTime)),
   ("SUMMARY:") ++ ev.summary,
   ("DESCRIPTION:") ++ ev.descr,
   ("LOCATION:") ++ ev.location,
   ("URL:https://jtgl.beijing.gov.cn/"),
   ("END:VEVENT")]

/-- The fixed calendar header (`lines` initial value). -/
def headerLines : List String :=
  [("BEGIN:VCALENDAR"),
   ("PRODID:-//beijing-xianxing//CN//"),
   ("VERSION:2.0"),
   ("X-WR-CALNAME:") ++ CAL_NAME,
   ("X-WR-CALDESC:") ++ CAL_DESC,
   ("X-WR-TIMEZONE:") ++ TZID]

/-- The complete line sequence written to the ics file: fixed header, one
VEVENT block per date, fixed footer. -/
def calendarLines (hash : String → String) (iso ymd : Nat → String) (P : Providers)
    (now : String) (today N : Nat) : List String :=
  headerLines
    ++ (runOutputs hash iso P now today N).flatMap (fun x => eventLines ymd x.2)
    ++ [("END:VCALENDAR")]

/-- A Gregorian calendar date as returned by the external lunar conversion. -/
structure GDate where
  year : Int
  month : Nat
  day : Nat
deriving DecidableEq

/-- The three lunar-year candidates tried by `gregorian_from_lunar_for_year`. -/
def lunarCandidates (gYear : Int) : List Int := [gYear - 1, gYear, gYear + 1]

/-- Contribution of one lunar-year candidate: convert (exception = `error`,
skipped), keep only results landing in the target Gregorian year. -/
def lunarContrib (toSolar : Int → Nat → Nat → Except Unit GDate)
    (gYear : Int) (lMonth lDay : Nat) (name : String) (ly : Int) :
    Option (GDate × String) :=
  match toSolar ly lMonth lDay with
  | Except.ok d => if d.year = gYear then some (d, name) else none
  | Except.error _ => none

/-- The `seen`-set de-duplication by resulting date, keeping first occurrences. -/
def dedupByDate : List (GDate × String) → List GDate → List (GDate × String)
  | [], _ => []
  | p :: rest, seen =>
      if p.1 ∈ seen then dedupByDate rest seen
      else p :: dedupByDate rest (p.1 :: seen)

/-- Model of `gregorian_from_lunar_for_year`: try lunar years target-1, target,
target+1, keep results in the target year, de-duplicate by date. -/
def gregorian_from_lunar_for_year (toSolar : Int → Nat → Nat → Except Unit GDate)
    (gYear : Int) (lMonth lDay : Nat) (name : String) : List (GDate × String) :=
  dedupByDate ((lunarCandidates gYear).filterMap (lunarContrib toSolar gYear lMonth lDay name)) []

/-! ### Helper lemmas about the main loop body -/

theorem dayOutput_date (hash : String → String) (iso : Nat → String) (P : Providers)
    (idx : List (Nat × String × Nat × Nat)) (now : String) (d : Nat) :
    (dayOutput hash iso P idx now d).1.date = d := by
  unfold dayOutput
  dsimp only
  split
  · split <;> rfl
  · rfl

theorem dayOutput_isWorkday (hash : String → String) (iso : Nat → String) (P : Providers)
    (idx : List (Nat × String × Nat × Nat)) (now : String) (d : Nat) :
    (dayOutput hash iso P idx now d).1.isWorkday = is_workday P.adjusted P.holidays d := by
  unfold dayOutput
  dsimp only
  split <;> rename_i h
  · split <;> simp [h]
  · simp [h]

theorem dayOutput_now_fst (hash : String → String) (iso : Nat → String) (P : Providers)
    (idx : List (Nat × String × Nat × Nat)) (n1 n2 : String) (d : Nat) :
    (dayOutput hash iso P idx n1 d).1 = (dayOutput hash iso P idx n2 d).1 := by
  unfold dayOutput
  dsimp only
  split
  · split <;> rfl
  · rfl

theorem dayOutput_uid (hash : String → String) (iso : Nat → String) (P : Providers)
    (idx : List (Nat × String × Nat × Nat)) (now : String) (d : Nat) :
    (dayOutput hash iso P idx now d).2.uid
      = uid_for hash iso d (if is_workday P.adjusted P.holidays d then ("work") else ("free")) := by
  unfold dayOutput
  dsimp only
  split <;> rename_i h
  · split <;> simp [h]
  · simp [h]

theorem dayOutput_unmatched (hash : String → String) (iso : Nat → String) (P : Providers)
    (idx : List (Nat × String × Nat × Nat)) (now : String) (d : Nat)
    (hw : is_workday P.adjusted P.holidays d = true)
    (hn : (rotation_for P.rotations d).bind (fun r => r.map.lookup (rotKey P.adjusted d)) = none) :
    (dayOutput hash iso P idx now d).1.rotationMatched = false
      ∧ (dayOutput hash iso P idx now d).1.restriction = none
      ∧ ∃ pre, (dayOutput hash iso P idx now d).2.descr = pre ++ unmatchedTail := by
  unfold dayOutput
  dsimp only
  simp only [hw, if_true, hn]
  exact ⟨trivial, trivial, _, rfl⟩

theorem dayOutput_matched (hash : String → String) (iso : Nat → String) (P : Providers)
    (idx : List (Nat × String × Nat × Nat)) (now : String) (d : Nat) (a b : Nat)
    (hw : is_workday P.adjusted P.holidays d = true)
    (hm : (rotation_for P.rotations d).bind (fun r => r.map.lookup (rotKey P.adjusted d)) = some (a, b)) :
    (dayOutput hash iso P idx now d).1.restriction = some (a, b)
      ∧ (dayOutput hash iso P idx now d).1.rotationMatched = true := by
  unfold dayOutput
  dsimp only
  simp only [hw, if_true, hm]
  exact ⟨trivial, trivial⟩

theorem dayOutput_times (hash : String → String) (iso : Nat → String) (P : Providers)
    (idx : List (Nat × String × Nat × Nat)) (now : String) (d : Nat) :
    (is_workday P.adjusted P.holidays d = true →
        (dayOutput hash iso P idx now d).2.startTime = (d, 7, 0)
          ∧ (dayOutput hash iso P idx now d).2.endTime = (d, 20, 0))
      ∧ (is_workday P.adjusted P.holidays d = false →
        (dayOutput hash iso P idx now d).2.startTime = (d, 0, 0)
          ∧ (dayOutput hash iso P idx now d).2.endTime = (d, 23, 59)) := by
  unfold dayOutput
  dsimp only
  constructor
  · intro h
    simp only [h, if_true]
    split <;> exact ⟨rfl, rfl⟩
  · intro h
    simp [h, fmt_dt]

theorem dayOutput_fest_indep (hash : String → String) (iso : Nat → String)
    (rot : List RotationRule) (hol : List (Nat × String)) (adj : List Nat)
    (f1 f2 : List (Nat × List String))
    (idx : List (Nat × String × Nat × Nat)) (now : String) (d : Nat) :
    (dayOutput hash iso ⟨rot, hol, adj, f1⟩ idx now d).1.isWorkday
        = (dayOutput hash iso ⟨rot, hol, adj, f2⟩ idx now d).1.isWorkday
      ∧ (dayOutput hash iso ⟨rot, hol, adj, f1⟩ idx now d).1.restriction
        = (dayOutput hash iso ⟨rot, hol, adj, f2⟩ idx now d).1.restriction := by
  unfold dayOutput
  dsimp only
  split
  · split <;> exact ⟨rfl, rfl⟩
  · exact ⟨rfl, rfl⟩

theorem dayOutput_holiday_fest (hash : String → String) (iso : Nat → String)
    (rot : List RotationRule) (hol : List (Nat × String)) (adj : List Nat)
    (f1 f2 : List (Nat × List String))
    (idx : List (Nat × String × Nat × Nat)) (now : String) (d : Nat)
    (hh : (holiday_info idx d).1 = true) :
    dayOutput hash iso ⟨rot, hol, adj, f1⟩ idx now d
        = dayOutput hash iso ⟨rot, hol, adj, f2⟩ idx now d
      ∧ (dayOutput hash iso ⟨rot, hol, adj, f1⟩ idx now d).1.festNames = "" := by
  constructor
  · simp [dayOutput, fest_names_for, hh]
  · unfold dayOutput
    dsimp only
    simp only [fest_names_for, hh]
    simp only [Bool.true_eq_false, false_and, if_false]
    split
    · split <;> rfl
    · rfl

theorem runOutputs_map_date (hash : String → String) (iso : Nat → String) (P : Providers)
    (now : String) (today N : Nat) :
    (runOutputs hash iso P now today N).map (fun x => x.1.date)
      = (List.range (N + 1)).map (fun i => today + i) := by
  unfold runOutputs
  rw [List.map_map]
  apply List.map_congr_left
  intro i _
  simp [Function.comp, dayOutput_date]

theorem runOutputs_mem (hash : String → String) (iso : Nat → String) (P : Providers)
    (now : String) (today N : Nat) (x : DayDecision × VEvent)
    (hx : x ∈ runOutputs hash iso P now today N) :
    ∃ i, i < N + 1 ∧ x = dayOutput hash iso P (buildDayIdx P.holidays) now (today + i) := by
  unfold runOutputs at hx
  rcases List.mem_map.mp hx with ⟨i, hi, hxe⟩
  exact ⟨i, List.mem_range.mp hi, hxe.symm⟩

/-! ### Claim theorems -/

/-- C1: the workday predicate is decided by this exact priority: an adjusted
workday is always a workday (regardless of holiday or weekend status);
otherwise a statutory holiday is never a workday; otherwise a date is a
workday exactly when its calendar weekday is Monday through Friday. -/
theorem c1_workday_priority (adjusted : List Nat) (holidays : List (Nat × String)) (d : Nat) :
    (d ∈ adjusted → is_workday adjusted holidays d = true)
      ∧ (d ∉ adjusted → (holidays.lookup d).isSome = true →
          is_workday adjusted holidays d = false)
      ∧ (d ∉ adjusted → (holidays.lookup d).isSome = false →
          (is_workday adjusted holidays d = true ↔ pyWeekday d < 5)) := by
  refine ⟨?_, ?_, ?_⟩
  · intro h
    simp [is_workday, h]
  · intro h1 h2
    simp [is_workday, h1, h2]
  · intro h1 h2
    simp [is_workday, h1, h2]

/-- Witness for C1: a compensatory Saturday (ordinal 6) counts as a workday,
and a midweek holiday (ordinal 2, a Tuesday) does not. -/
theorem c1_workday_priority_witness :
    is_workday [6] [] 6 = true ∧ is_workday [] [(2, "元旦")] 2 = false :=
  ⟨(c1_workday_priority [6] [] 6).1 (by decide),
   (c1_workday_priority [] [(2, "元旦")] 2).2.1 (by decide) (by decide)⟩

/-- C3: for a compensatory workday whose natural weekday is Saturday or
Sunday the rotation key is remapped to 4 (the Friday slot), never the raw
weekend weekday; every other workday keeps its natural weekday key, which is
necessarily in Mon..Fri (0..4); and the restriction emitted by the main loop
is the matched rule's digit pair at exactly that key. -/
theorem c3_weekend_rotation_key :
    (∀ (adjusted : List Nat) (d : Nat), d ∈ adjusted → 4 < pyWeekday d →
        rotKey adjusted d = 4)
      ∧ (∀ (adjusted : List Nat) (holidays : List (Nat × String)) (d : Nat),
          is_workday adjusted holidays d = true → ¬(d ∈ adjusted ∧ 4 < pyWeekday d) →
          rotKey adjusted d = pyWeekday d ∧ pyWeekday d < 5)
      ∧ (∀ (hash : String → String) (iso : Nat → String) (P : Providers)
          (idx : List (Nat × String × Nat × Nat)) (now : String) (d a b : Nat),
          is_workday P.adjusted P.holidays d = true →
          (rotation_for P.rotations d).bind (fun r => r.map.lookup (rotKey P.adjusted d))
            = some (a, b) →
          (dayOutput hash iso P idx now d).1.restriction = some (a, b)) := by
  refine ⟨?_, ?_, ?_⟩
  · intro adjusted d h1 h2
    simp [rotKey, h1, h2]
  · intro adjusted holidays d hw hneg
    have hwd : pyWeekday d < 5 := by
      by_cases hmem : d ∈ adjusted
      · have h4 : ¬4 < pyWeekday d := fun hgt => hneg ⟨hmem, hgt⟩
        omega
      · by_cases hl : (holidays.lookup d).isSome = true
        · simp [is_workday, hmem, hl] at hw
        · simp [is_workday, hmem, hl] at hw
          exact hw
    exact ⟨by simp [rotKey, hneg], hwd⟩
  · intro hash iso P idx now d a b hw hm
    exact (dayOutput_matched hash iso P idx now d a b hw hm).1

/-- Witness for C3: ordinal 6 is a Saturday (weekday 5); as a compensatory
workday its key is 4, and with a rotation rule whose Friday slot is (5, 0)
the emitted restriction is (5, 0). -/
theorem c3_weekend_rotation_key_witness :
    rotKey [6] 6 = 4
      ∧ (dayOutput (fun s => s) (fun n => Nat.repr n)
          ⟨[⟨6, 6, [(4, 5, 0)]⟩], [], [6], []⟩ [] ("T") 6).1.restriction = some (5, 0) :=
  ⟨c3_weekend_rotation_key.1 [6] 6 (by decide) (by decide),
   c3_weekend_rotation_key.2.2 (fun s => s) (fun n => Nat.repr n)
     ⟨[⟨6, 6, [(4, 5, 0)]⟩], [], [6], []⟩ [] ("T") 6 5 0 (by decide) (by decide)⟩

/-- C4: on a date the holiday index marks as a statutory holiday, the
festival-name computation yields the empty string, the whole decision/event
pair is independent of the festival layer (so no festival name can appear in
it), the decision's festival field is empty; and, holiday or not, the
festival layer never influences isWorkday or the restriction. -/
theorem c4_holiday_suppresses_festivals :
    (∀ (fest : List (Nat × List String)) (d : Nat), fest_names_for true fest d = "")
      ∧ (∀ (hash : String → String) (iso : Nat → String) (rot : List RotationRule)
          (hol : List (Nat × String)) (adj : List Nat) (f1 f2 : List (Nat × List String))
          (idx : List (Nat × String × Nat × Nat)) (now : String) (d : Nat),
          (holiday_info idx d).1 = true →
          dayOutput hash iso ⟨rot, hol, adj, f1⟩ idx now d
            = dayOutput hash iso ⟨rot, hol, adj, f2⟩ idx now d)
      ∧ (∀ (hash : String → String) (iso : Nat → String) (rot : List RotationRule)
          (hol : List (Nat × String)) (adj : List Nat) (f : List (Nat × List String))
          (idx : List (Nat × String × Nat × Nat)) (now : String) (d : Nat),
          (holiday_info idx d).1 = true →
          (dayOutput hash iso ⟨rot, hol, adj, f⟩ idx now d).1.festNames = "")
      ∧ (∀ (hash : String → String) (iso : Nat → String) (rot : List RotationRule)
          (hol : List (Nat × String)) (adj : List Nat) (f1 f2 : List (Nat × List String))
          (idx : List (Nat × String × Nat × Nat)) (now : String) (d : Nat),
          (dayOutput hash iso ⟨rot, hol, adj, f1⟩ idx now d).1.isWorkday
              = (dayOutput hash iso ⟨rot, hol, adj, f2⟩ idx now d).1.isWorkday
            ∧ (dayOutput hash iso ⟨rot, hol, adj, f1⟩ idx now d).1.restriction
              = (dayOutput hash iso ⟨rot, hol, adj, f2⟩ idx now d).1.restriction) := by
  refine ⟨?_, ?_, ?_, ?_⟩
  · intro fest d
    simp [fest_names_for]
  · intro hash iso rot hol adj f1 f2 idx now d hh
    exact (dayOutput_holiday_fest hash iso rot hol adj f1 f2 idx now d hh).1
  · intro hash iso rot hol adj f idx now d hh
    exact (dayOutput_holiday_fest hash iso rot hol adj f f idx now d hh).2
  · intro hash iso rot hol adj f1 f2 idx now d
    exact dayOutput_fest_indep hash iso rot hol adj f1 f2 idx now d

/-- Witness for C4: a holiday date (ordinal 5, indexed as 春节 1/3) with a
festival rule matching the same date still shows no festival names. -/
theorem c4_holiday_suppresses_festivals_witness :
    (dayOutput (fun s => s) (fun n => Nat.repr n)
        ⟨[], [(5, "春节")], [], [(5, [("元宵节")])]⟩ [(5, "春节", 1, 3)] ("T") 5).1.festNames = "" :=
  c4_holiday_suppresses_festivals.2.2.1 (fun s => s) (fun n => Nat.repr n)
    [] [(5, "春节")] [] [(5, [("元宵节")])] [(5, "春节", 1, 3)] ("T") 5 (by decide)

/-- C5: the rotation lookup scans the table in order and takes the first rule
whose inclusive span contains the date; a returned rule is a member whose
span contains the date; the lookup fails exactly when no rule's span contains
the date (so in particular for an empty table); when the lookup or the
weekday-key lookup fails on a workday, the decision carries
rotationMatched = false and no restriction; and the run still emits exactly
one decision per date of the window. -/
theorem c5_rotation_fallback :
    (∀ (r : RotationRule) (rest : List RotationRule) (d : Nat),
        rotation_for (r :: rest) d
          = if r.start ≤ d ∧ d ≤ r.stop then some r else rotation_for rest d)
      ∧ (∀ (rotations : List RotationRule) (d : Nat) (r : RotationRule),
          rotation_for rotations d = some r → r ∈ rotations ∧ r.start ≤ d ∧ d ≤ r.stop)
      ∧ (∀ (rotations : List RotationRule) (d : Nat),
          rotation_for rotations d = none ↔ ∀ r ∈ rotations, ¬(r.start ≤ d ∧ d ≤ r.stop))
      ∧ (∀ (hash : String → String) (iso : Nat → String) (P : Providers)
          (idx : List (Nat × String × Nat × Nat)) (now : String) (d : Nat),
          is_workday P.adjusted P.holidays d = true →
          (rotation_for P.rotations d).bind (fun r => r.map.lookup (rotKey P.adjusted d))
            = none →
          (dayOutput hash iso P idx now d).1.rotationMatched = false
            ∧ (dayOutput hash iso P idx now d).1.restriction = none)
      ∧ (∀ (hash : String → String) (iso : Nat → String) (P : Providers)
          (now : String) (today N : Nat),
          (runOutputs hash iso P now today N).map (fun x => x.1.date)
            = (List.range (N + 1)).map (fun i => today + i)) := by
  refine ⟨?_, ?_, ?_, ?_, ?_⟩
  · intro r rest d
    by_cases h : (decide (r.start ≤ d) && decide (d ≤ r.stop)) = true
    · rw [rotation_for, List.find?_cons_of_pos rest h]
      simp only [Bool.and_eq_true, decide_eq_true_eq] at h
      rw [if_pos h]
    · rw [rotation_for, List.find?_cons_of_neg rest h]
      simp only [Bool.and_eq_true, decide_eq_true_eq] at h
      rw [if_neg h]
      rfl
  · intro rotations d r h
    refine ⟨List.mem_of_find?_eq_some h, ?_⟩
    have := List.find?_some h
    simpa using this
  · intro rotations d
    rw [rotation_for, List.find?_eq_none]
    constructor
    · intro h r hr
      have := h r hr
      simpa using this
    · intro h r hr
      simpa using h r hr
  · intro hash iso P idx now d hw hn
    exact ⟨(dayOutput_unmatched hash iso P idx now d hw hn).1,
           (dayOutput_unmatched hash iso P idx now d hw hn).2.1⟩
  · intro hash iso P now today N
    exact runOutputs_map_date hash iso P now today N

/-- Witness for C5: with an empty rotation table, a plain Monday workday
(ordinal 1) yields rotationMatched = false and no restriction. -/
theorem c5_rotation_fallback_witness :
    (dayOutput (fun s => s) (fun n => Nat.repr n) ⟨[], [], [], []⟩ [] ("T") 1).1.rotationMatched = false
      ∧ (dayOutput (fun s => s) (fun n => Nat.repr n) ⟨[], [], [], []⟩ [] ("T") 1).1.restriction = none :=
  c5_rotation_fallback.2.2.2.1 (fun s => s) (fun n => Nat.repr n)
    ⟨[], [], [], []⟩ [] ("T") 1 (by decide) (by decide)

/-- C9: the emitter produces exactly one calendar entry per date of the
window [today, today + N], in ascending date order (the dates of the run are
exactly today + 0, ..., today + N); each workday entry carries the fixed
business-hours window 07:00-20:00 and each non-workday entry carries the
full-day window 00:00-23:59. -/
theorem c9_one_event_per_date :
    (∀ (hash : String → String) (iso : Nat → String) (P : Providers)
        (now : String) (today N : Nat),
        (runOutputs hash iso P now today N).length = N + 1
          ∧ (runOutputs hash iso P now today N).map (fun x => x.1.date)
            = (List.range (N + 1)).map (fun i => today + i))
      ∧ (∀ (hash : String → String) (iso : Nat → String) (P : Providers)
          (now : String) (today N : Nat) (x : DayDecision × VEvent),
          x ∈ runOutputs hash iso P now today N →
          x.1.isWorkday = is_workday P.adjusted P.holidays x.1.date
            ∧ (x.1.isWorkday = true →
                x.2.startTime = (x.1.date, 7, 0) ∧ x.2.endTime = (x.1.date, 20, 0))
            ∧ (x.1.isWorkday = false →
                x.2.startTime = (x.1.date, 0, 0) ∧ x.2.endTime = (x.1.date, 23, 59))) := by
  constructor
  · intro hash iso P now today N
    refine ⟨?_, runOutputs_map_date hash iso P now today N⟩
    simp [runOutputs]
  · intro hash iso P now today N x hx
    rcases runOutputs_mem hash iso P now today N x hx with ⟨i, _, hxe⟩
    subst hxe
    rw [dayOutput_date, dayOutput_isWorkday]
    refine ⟨rfl, ?_, ?_⟩
    · intro h
      exact (dayOutput_times hash iso P (buildDayIdx P.holidays) now (today + i)).1 h
    · intro h
      exact (dayOutput_times hash iso P (buildDayIdx P.holidays) now (today + i)).2 h

/-- Witness for C9: a two-day window starting at a Sunday (ordinal 7): the
Sunday event is full-day, the Monday event is 07:00-20:00. -/
theorem c9_one_event_per_date_witness :
    ((runOutputs (fun s => s) (fun n => Nat.repr n) ⟨[], [], [], []⟩ ("T") 7 1).map
        (fun x => (x.1.isWorkday, x.2.startTime, x.2.endTime)))
      = [(false, (7, 0, 0), (7, 23, 59)), (true, (8, 7, 0), (8, 20, 0))] := by
  have h := c9_one_event_per_date.2 (fun s => s) (fun n => Nat.repr n)
    ⟨[], [], [], []⟩ ("T") 7 1
  decide

/-! ### Holiday block numbering machinery -/

theorem lookup_eq_some_of_mem {α β : Type} [BEq α] [LawfulBEq α] :
    ∀ (l : List (α × β)), (l.map Prod.fst).Nodup → ∀ (k : α) (v : β),
      (k, v) ∈ l → l.lookup k = some v
  | [], _, k, v, hm => by cases hm
  | p :: t, hnd, k, v, hm => by
      rcases List.mem_cons.mp hm with h | h
      · rw [← h]
        simp [List.lookup]
      · have hk : (k == p.1) = false := by
          rw [beq_eq_false_iff_ne]
          intro he
          have hmem : k ∈ t.map Prod.fst := List.mem_map.mpr ⟨(k, v), h, rfl⟩
          rw [List.map_cons, List.nodup_cons] at hnd
          exact hnd.1 (he ▸ hmem)
        rw [List.lookup, hk]
        exact lookup_eq_some_of_mem t
          (by rw [List.map_cons, List.nodup_cons] at hnd; exact hnd.2) k v h

theorem lookup_isSome_iff_mem_keys {α β : Type} [BEq α] [LawfulBEq α] :
    ∀ (l : List (α × β)) (k : α), (l.lookup k).isSome = true ↔ k ∈ l.map Prod.fst
  | [], k => by simp [List.lookup]
  | p :: t, k => by
      by_cases h : k = p.1
      · subst h
        simp [List.lookup]
      · have hk : (k == p.1) = false := by rw [beq_eq_false_iff_ne]; exact h
        rw [List.lookup, hk, List.map_cons]
        simp only [List.mem_cons]
        rw [lookup_isSome_iff_mem_keys t k]
        constructor
        · exact Or.inr
        · rintro (he | hm)
          · exact absurd he h
          · exact hm

theorem mem_of_lookup_eq_some {α β : Type} [BEq α] [LawfulBEq α] :
    ∀ (l : List (α × β)) (k : α) (v : β), l.lookup k = some v → (k, v) ∈ l
  | [], k, v, h => by simp [List.lookup] at h
  | p :: t, k, v, h => by
      by_cases he : k = p.1
      · subst he
        rw [List.lookup, beq_self_eq_true] at h
        cases h
        exact List.mem_cons_self _ _
      · have hk : (k == p.1) = false := by rw [beq_eq_false_iff_ne]; exact he
        rw [List.lookup, hk] at h
        exact List.mem_cons_of_mem _ (mem_of_lookup_eq_some t k v h)

theorem splitAux_expand :
    ∀ (rest : List Nat) (first last : Nat), first ≤ last →
      (splitAux first last rest).flatMap blockDates
        = (List.range (last - first + 1)).map (fun k => first + k) ++ rest := by
  intro rest
  induction rest with
  | nil =>
      intro first last _
      simp [splitAux, blockDates]
  | cons e rest ih =>
      intro first last hfl
      by_cases he : e = last + 1
      · rw [splitAux, if_pos he]
        rw [ih first e (by omega)]
        have h1 : e - first + 1 = (last - first + 1) + 1 := by omega
        rw [h1, List.range_succ, List.map_append]
        have h2 : first + (last - first + 1) = e := by omega
        simp [h2]
      · rw [splitAux, if_neg he]
        rw [List.flatMap_cons]
        rw [ih e e le_rfl]
        simp [blockDates, List.range_succ]

theorem splitAux_head :
    ∀ (rest : List Nat) (first last : Nat),
      ∃ t, (splitAux first last rest).head? = some (first, t) := by
  intro rest
  induction rest with
  | nil => intro first last; exact ⟨last - first + 1, rfl⟩
  | cons e rest ih =>
      intro first last
      by_cases he : e = last + 1
      · rw [splitAux, if_pos he]
        exact ih first e
      · rw [splitAux, if_neg he]
        exact ⟨last - first + 1, rfl⟩

theorem splitAux_gap :
    ∀ (rest : List Nat) (first last : Nat), first ≤ last →
      List.Chain' (· < ·) (last :: rest) →
      List.Chain' (fun b c : Nat × Nat => b.1 + b.2 < c.1) (splitAux first last rest) := by
  intro rest
  induction rest with
  | nil =>
      intro first last _ _
      simp [splitAux]
  | cons e rest ih =>
      intro first last hfl hch
      rw [List.chain'_cons] at hch
      by_cases he : e = last + 1
      · rw [splitAux, if_pos he]
        exact ih first e (by omega) hch.2
      · rw [splitAux, if_neg he]
        rw [List.chain'_cons']
        constructor
        · intro y hy
          rcases splitAux_head rest e e with ⟨t, ht⟩
          rw [ht] at hy
          simp at hy
          rw [← hy]
          simp only
          have hlt : last < e := hch.1
          omega
        · exact ih e e le_rfl hch.2

theorem splitAux_len_pos :
    ∀ (rest : List Nat) (first last : Nat) (b : Nat × Nat),
      b ∈ splitAux first last rest → 1 ≤ b.2 := by
  intro rest
  induction rest with
  | nil =>
      intro first last b hb
      simp [splitAux] at hb
      rw [hb]
      omega
  | cons e rest ih =>
      intro first last b hb
      by_cases he : e = last + 1
      · rw [splitAux, if_pos he] at hb
        exact ih first e b hb
      · rw [splitAux, if_neg he] at hb
        rcases List.mem_cons.mp hb with h | h
        · rw [h]; omega
        · exact ih e e b h

theorem splitBlocks_expand (ds : List Nat) :
    (splitBlocks ds).flatMap blockDates = ds := by
  cases ds with
  | nil => rfl
  | cons d ds =>
      rw [splitBlocks, splitAux_expand ds d d le_rfl]
      simp [blockDates, List.range_succ]

theorem splitBlocks_gap (ds : List Nat) (h : List.Chain' (· < ·) ds) :
    List.Chain' (fun b c : Nat × Nat => b.1 + b.2 < c.1) (splitBlocks ds) := by
  cases ds with
  | nil => simp [splitBlocks]
  | cons d ds => exact splitAux_gap ds d d le_rfl h

theorem splitBlocks_len_pos (ds : List Nat) (b : Nat × Nat) (hb : b ∈ splitBlocks ds) :
    1 ≤ b.2 := by
  cases ds with
  | nil => simp [splitBlocks] at hb
  | cons d ds => exact splitAux_len_pos ds d d b hb

theorem dayIdx_keys (nm : String) (ds : List Nat) :
    (dayIdx nm ds).map Prod.fst = (splitBlocks ds).flatMap blockDates := by
  rw [dayIdx, List.map_flatMap]
  congr 1
  funext a
  simp [blockDates, Function.comp]

theorem mem_dayIdx_iff (nm : String) (ds : List Nat) (x : Nat × String × Nat × Nat) :
    x ∈ dayIdx nm ds
      ↔ ∃ b ∈ splitBlocks ds, ∃ k, k < b.2 ∧ x = (b.1 + k, nm, k + 1, b.2) := by
  rw [dayIdx]
  simp only [List.mem_flatMap, List.mem_map, List.mem_range]
  constructor
  · rintro ⟨b, hb, k, hk, hx⟩
    exact ⟨b, hb, k, hk, hx.symm⟩
  · rintro ⟨b, hb, k, hk, hx⟩
    exact ⟨b, hb, k, hk, hx.symm⟩

theorem nodup_of_chain'_lt (ds : List Nat) (h : List.Chain' (· < ·) ds) : ds.Nodup := by
  have hp : List.Pairwise (· < ·) ds := List.chain'_iff_pairwise.mp h
  exact hp.imp (fun hlt => Nat.ne_of_lt hlt)

theorem mem_sortNat (l : List Nat) (d : Nat) : d ∈ sortNat l ↔ d ∈ l :=
  (List.perm_insertionSort (· ≤ ·) l).mem_iff

theorem dayIdx_keys_eq (nm : String) (ds : List Nat) :
    (dayIdx nm ds).map Prod.fst = ds := by
  rw [dayIdx_keys, splitBlocks_expand]

theorem mem_buildDayIdx_keys (holidays : List (Nat × String)) (d : Nat) :
    d ∈ (buildDayIdx holidays).map Prod.fst ↔ d ∈ holidays.map Prod.fst := by
  rw [buildDayIdx, List.map_flatMap]
  simp only [List.mem_flatMap, List.mem_dedup, List.mem_map]
  constructor
  · rintro ⟨nm, _, a, ha, ha1⟩
    have hd : d ∈ (dayIdx nm (sortNat ((holidays.filter (fun p => p.2 == nm)).map Prod.fst))).map Prod.fst :=
      List.mem_map.mpr ⟨a, ha, ha1⟩
    rw [dayIdx_keys_eq, mem_sortNat] at hd
    rcases List.mem_map.mp hd with ⟨p, hp, hp1⟩
    exact ⟨p, (List.mem_filter.mp hp).1, hp1⟩
  · rintro ⟨p, hp, hp1⟩
    refine ⟨p.2, ⟨p, hp, rfl⟩, ?_⟩
    have hd : d ∈ (dayIdx p.2 (sortNat ((holidays.filter (fun q => q.2 == p.2)).map Prod.fst))).map Prod.fst := by
      rw [dayIdx_keys_eq, mem_sortNat]
      exact List.mem_map.mpr ⟨p, List.mem_filter.mpr ⟨hp, by simp⟩, hp1⟩
    rcases List.mem_map.mp hd with ⟨a, ha, ha1⟩
    exact ⟨a, ha, ha1⟩

theorem buildDayIdx_entry (holidays : List (Nat × String)) (x : Nat × String × Nat × Nat)
    (hx : x ∈ buildDayIdx holidays) :
    (x.1, x.2.1) ∈ holidays ∧ 1 ≤ x.2.2.1 ∧ x.2.2.1 ≤ x.2.2.2 := by
  rw [buildDayIdx] at hx
  rcases List.mem_flatMap.mp hx with ⟨nm, _, hxd⟩
  have hkey : x.1 ∈ (holidays.filter (fun p => p.2 == nm)).map Prod.fst := by
    have h1 : x.1 ∈ (dayIdx nm (sortNat ((holidays.filter (fun p => p.2 == nm)).map Prod.fst))).map Prod.fst :=
      List.mem_map.mpr ⟨x, hxd, rfl⟩
    rw [dayIdx_keys_eq, mem_sortNat] at h1
    exact h1
  rcases (mem_dayIdx_iff nm _ x).mp hxd with ⟨b, _, k, hk, hxe⟩
  have hx21 : x.2.1 = nm := by rw [hxe]
  have hmem : (x.1, x.2.1) ∈ holidays := by
    rcases List.mem_map.mp hkey with ⟨p, hpf, hp1⟩
    rcases List.mem_filter.mp hpf with ⟨hph, hpb⟩
    have hp2 : p.2 = nm := by simpa using hpb
    have : (x.1, x.2.1) = p := by
      rw [hx21, ← hp1, ← hp2]
    rw [this]
    exact hph
  refine ⟨hmem, ?_, ?_⟩
  · rw [hxe]
    dsimp only
    omega
  · rw [hxe]
    dsimp only
    omega


/-- C2: on a sorted duplicate-free date list (one holiday name's dates), the
block construction splits it into runs whose covered dates, concatenated in
order, are exactly the input list; every block has positive length L and the
day_idx lookups over its dates, in date order, yield exactly the pairs
(1, L), ..., (L, L); and consecutive blocks are separated by a calendar gap
(next start exceeds previous end + 1 minus nothing: previous start + length
< next start), so same-named runs across a gap are never merged. -/
theorem c2_holiday_block_numbering (nm : String) (ds : List Nat)
    (hs : List.Chain' (· < ·) ds) :
    ((splitBlocks ds).flatMap blockDates = ds)
      ∧ (∀ b ∈ splitBlocks ds, 1 ≤ b.2
          ∧ ∀ k, k < b.2 → (dayIdx nm ds).lookup (b.1 + k) = some (nm, k + 1, b.2))
      ∧ List.Chain' (fun b c : Nat × Nat => b.1 + b.2 < c.1) (splitBlocks ds) := by
  have hkeys : (dayIdx nm ds).map Prod.fst = ds := by
    rw [dayIdx_keys, splitBlocks_expand]
  have hnd : ((dayIdx nm ds).map Prod.fst).Nodup := by
    rw [hkeys]
    exact nodup_of_chain'_lt ds hs
  refine ⟨splitBlocks_expand ds, ?_, splitBlocks_gap ds hs⟩
  intro b hb
  refine ⟨splitBlocks_len_pos ds b hb, ?_⟩
  intro k hk
  apply lookup_eq_some_of_mem _ hnd
  rw [mem_dayIdx_iff]
  exact ⟨b, hb, k, hk, rfl⟩


/-- Witness for C2: dates 3,4,5,9,10 split into blocks (3,3) and (9,2); the
gap between 5 and 9 is preserved, and date 4 is numbered 2 of 3. -/
theorem c2_holiday_block_numbering_witness :
    ((splitBlocks [3, 4, 5, 9, 10]).flatMap blockDates = [3, 4, 5, 9, 10])
      ∧ List.Chain' (fun b c : Nat × Nat => b.1 + b.2 < c.1) (splitBlocks [3, 4, 5, 9, 10]) :=
  ⟨(c2_holiday_block_numbering ("春节") [3, 4, 5, 9, 10] (by norm_num [List.chain'_cons])).1,
   (c2_holiday_block_numbering ("春节") [3, 4, 5, 9, 10] (by norm_num [List.chain'_cons])).2.2⟩

/-- C10: the derived block index covers exactly the statutory-holiday dates:
its lookup succeeds precisely when the holiday dict's lookup does; every
index entry carries a name present in the holiday dict at that date together
with a 1-based in-block position bounded by the block length; and
holiday_info returns (true, name, index, total) exactly on indexed dates and
(false, none, none, none) otherwise, so a holiday label is never emitted
without its index and total. -/
theorem c10_block_index_coverage (holidays : List (Nat × String)) (d : Nat) :
    (((buildDayIdx holidays).lookup d).isSome = (holidays.lookup d).isSome)
      ∧ (∀ nm i t, (buildDayIdx holidays).lookup d = some (nm, i, t) →
          (d, nm) ∈ holidays ∧ 1 ≤ i ∧ i ≤ t
            ∧ holiday_info (buildDayIdx holidays) d = (true, some nm, some i, some t))
      ∧ ((holidays.lookup d).isSome = false →
          holiday_info (buildDayIdx holidays) d = (false, none, none, none)) := by
  have hiff : ((buildDayIdx holidays).lookup d).isSome = true ↔ (holidays.lookup d).isSome = true := by
    rw [lookup_isSome_iff_mem_keys, lookup_isSome_iff_mem_keys, mem_buildDayIdx_keys]
  refine ⟨?_, ?_, ?_⟩
  · by_cases h : ((buildDayIdx holidays).lookup d).isSome = true
    · rw [h, (hiff.mp h).symm]
    · have h2 : ¬(holidays.lookup d).isSome = true := fun hh => h (hiff.mpr hh)
      rw [Bool.not_eq_true] at h h2
      rw [h, h2]
  · intro nm i t hl
    have hm := mem_of_lookup_eq_some _ d (nm, i, t) hl
    have he := buildDayIdx_entry holidays (d, nm, i, t) hm
    refine ⟨he.1, he.2.1, he.2.2, ?_⟩
    rw [holiday_info, hl]
  · intro h
    have h2 : ((buildDayIdx holidays).lookup d).isSome = false := by
      rw [Bool.eq_false_iff]
      intro hh
      rw [hiff.mp hh] at h
      cases h
    rw [holiday_info]
    rcases ho : (buildDayIdx holidays).lookup d with _ | v
    · rfl
    · rw [ho] at h2
      cases h2

/-- Witness for C10: for holidays A on dates 3,4 and 9, date 4 is indexed as
day 2 of the length-2 block and date 5 is not indexed. -/
theorem c10_block_index_coverage_witness :
    ((4, "A") ∈ [(3, "A"), (4, "A"), (9, "A")] ∧ 1 ≤ 2 ∧ 2 ≤ 2
        ∧ holiday_info (buildDayIdx [(3, "A"), (4, "A"), (9, "A")]) 4
          = (true, some ("A"), some 2, some 2))
      ∧ holiday_info (buildDayIdx [(3, "A"), (4, "A"), (9, "A")]) 5
          = (false, none, none, none) :=
  ⟨(c10_block_index_coverage [(3, "A"), (4, "A"), (9, "A")] 4).2.1 ("A") 2 2 (by decide),
   (c10_block_index_coverage [(3, "A"), (4, "A"), (9, "A")] 5).2.2 (by decide)⟩

/-! ### Lunar conversion machinery -/

theorem dedupByDate_subset :
    ∀ (l : List (GDate × String)) (seen : List GDate) (x : GDate × String),
      x ∈ dedupByDate l seen → x ∈ l := by
  intro l
  induction l with
  | nil => intro seen x hx; cases hx
  | cons p rest ih =>
      intro seen x hx
      rw [dedupByDate] at hx
      by_cases hp : p.1 ∈ seen
      · rw [if_pos hp] at hx
        exact List.mem_cons_of_mem _ (ih seen x hx)
      · rw [if_neg hp] at hx
        rcases List.mem_cons.mp hx with h | h
        · exact h ▸ List.mem_cons_self _ _
        · exact List.mem_cons_of_mem _ (ih (p.1 :: seen) x h)

theorem dedupByDate_not_seen :
    ∀ (l : List (GDate × String)) (seen : List GDate) (x : GDate × String),
      x ∈ dedupByDate l seen → x.1 ∉ seen := by
  intro l
  induction l with
  | nil => intro seen x hx; cases hx
  | cons p rest ih =>
      intro seen x hx
      rw [dedupByDate] at hx
      by_cases hp : p.1 ∈ seen
      · rw [if_pos hp] at hx
        exact ih seen x hx
      · rw [if_neg hp] at hx
        rcases List.mem_cons.mp hx with h | h
        · rw [h]
          exact hp
        · intro hs
          exact ih (p.1 :: seen) x h (List.mem_cons_of_mem _ hs)

theorem dedupByDate_pairwise :
    ∀ (l : List (GDate × String)) (seen : List GDate),
      (dedupByDate l seen).Pairwise (fun p q => p.1 ≠ q.1) := by
  intro l
  induction l with
  | nil => intro seen; exact List.Pairwise.nil
  | cons p rest ih =>
      intro seen
      rw [dedupByDate]
      by_cases hp : p.1 ∈ seen
      · rw [if_pos hp]
        exact ih seen
      · rw [if_neg hp]
        refine List.Pairwise.cons ?_ (ih (p.1 :: seen))
        intro q hq he
        exact dedupByDate_not_seen rest (p.1 :: seen) q hq (he ▸ List.mem_cons_self _ _)

theorem filterMap_erase_none {α β : Type} [DecidableEq α] (f : α → Option β) (a : α)
    (hf : f a = none) :
    ∀ l : List α, l.filterMap f = (l.filter (fun x => x ≠ a)).filterMap f := by
  intro l
  induction l with
  | nil => rfl
  | cons x rest ih =>
      by_cases hx : x = a
      · subst hx
        simp [List.filterMap_cons, hf, List.filter_cons, ih]
      · cases hfx : f x <;>
          simp [List.filterMap_cons, List.filter_cons, hx, hfx, ih]

/-- C7: every result of the lunar conversion wrapper has Gregorian year equal
to the target year, carries the rule's festival name, and comes from a
successful conversion at one of the lunar-year candidates target-1, target,
target+1; results are de-duplicated by resulting date; a candidate for which
the conversion throws contributes nothing (the result is as if that
candidate had been filtered out of the candidate list) and the wrapper is
total - with the everywhere-throwing oracle it returns the empty list
rather than aborting. -/
theorem c7_lunar_conversion :
    (∀ (toSolar : Int → Nat → Nat → Except Unit GDate) (gYear : Int) (lMonth lDay : Nat)
        (name : String) (p : GDate × String),
        p ∈ gregorian_from_lunar_for_year toSolar gYear lMonth lDay name →
        p.1.year = gYear ∧ p.2 = name
          ∧ ∃ ly ∈ lunarCandidates gYear, toSolar ly lMonth lDay = Except.ok p.1)
      ∧ (∀ (toSolar : Int → Nat → Nat → Except Unit GDate) (gYear : Int) (lMonth lDay : Nat)
          (name : String),
          (gregorian_from_lunar_for_year toSolar gYear lMonth lDay name).Pairwise
            (fun p q => p.1 ≠ q.1))
      ∧ (∀ (toSolar : Int → Nat → Nat → Except Unit GDate) (gYear : Int) (lMonth lDay : Nat)
          (name : String) (ly : Int) (e : Unit), toSolar ly lMonth lDay = Except.error e →
          gregorian_from_lunar_for_year toSolar gYear lMonth lDay name
            = dedupByDate (((lunarCandidates gYear).filter (fun x => x ≠ ly)).filterMap
                (lunarContrib toSolar gYear lMonth lDay name)) [])
      ∧ (∀ (gYear : Int) (lMonth lDay : Nat) (name : String),
          gregorian_from_lunar_for_year (fun _ _ _ => Except.error ()) gYear lMonth lDay name
            = []) := by
  refine ⟨?_, ?_, ?_, ?_⟩
  · intro toSolar gYear lMonth lDay name p hp
    have hp2 := dedupByDate_subset _ [] p hp
    rcases List.mem_filterMap.mp hp2 with ⟨ly, hly, hc⟩
    rw [lunarContrib] at hc
    rcases ho : toSolar ly lMonth lDay with e | dd
    · rw [ho] at hc
      dsimp only at hc
      simp at hc
    · rw [ho] at hc
      dsimp only at hc
      by_cases hy : dd.year = gYear
      · rw [if_pos hy] at hc
        cases hc
        exact ⟨hy, rfl, ly, hly, ho⟩
      · rw [if_neg hy] at hc
        cases hc
  · intro toSolar gYear lMonth lDay name
    exact dedupByDate_pairwise _ []
  · intro toSolar gYear lMonth lDay name ly e he
    have hnone : lunarContrib toSolar gYear lMonth lDay name ly = none := by
      rw [lunarContrib, he]
    rw [gregorian_from_lunar_for_year]
    rw [filterMap_erase_none (lunarContrib toSolar gYear lMonth lDay name) ly hnone]
  · intro gYear lMonth lDay name
    rfl

/-- Witness for C7: with an oracle that succeeds only for lunar year 2024
(yielding a date in 2025) and throws for 2025 and 2026, the wrapper for
target year 2025 returns exactly that one dated name. -/
theorem c7_lunar_conversion_witness :
    ((⟨2025, 2, 12⟩ : GDate), ("元宵节")).1.year = 2025
      ∧ ((⟨2025, 2, 12⟩ : GDate), ("元宵节")).2 = "元宵节"
      ∧ ∃ ly ∈ lunarCandidates 2025,
          (fun (ly : Int) (_ _ : Nat) =>
              if ly = 2024 then Except.ok (⟨2025, 2, 12⟩ : GDate) else Except.error ())
            ly 1 15 = Except.ok ((⟨2025, 2, 12⟩ : GDate), ("元宵节")).1 :=
  c7_lunar_conversion.1
    (fun (ly : Int) (_ _ : Nat) =>
      if ly = 2024 then Except.ok (⟨2025, 2, 12⟩ : GDate) else Except.error ())
    2025 1 15 ("元宵节") ((⟨2025, 2, 12⟩ : GDate), ("元宵节")) (by decide)

/-! ### Identifier determinism machinery -/

theorem string_length_data (s : String) : s.data.length = s.length := rfl

theorem sAppend_cancel_right (a b c : String) (h : a ++ c = b ++ c) : a = b := by
  apply String.ext
  have hd : a.data ++ c.data = b.data ++ c.data := by
    rw [← String.data_append, ← String.data_append, h]
  exact List.append_cancel_right hd

theorem sAppend_cancel_left (a b c : String) (h : c ++ a = c ++ b) : a = b := by
  apply String.ext
  have hd : c.data ++ a.data = c.data ++ b.data := by
    rw [← String.data_append, ← String.data_append, h]
  exact List.append_cancel_left hd

theorem sAppend_inj_of_length (a b c d : String) (h : a ++ c = b ++ d)
    (hlen : c.length = d.length) : a = b ∧ c = d := by
  have hd : a.data ++ c.data = b.data ++ d.data := by
    rw [← String.data_append, ← String.data_append, h]
  have hl : c.data.length = d.data.length := by
    rw [string_length_data, string_length_data, hlen]
  have := List.append_inj' hd hl
  exact ⟨String.ext this.1, String.ext this.2⟩

theorem uid_for_inj_date (hash : String → String) (iso : Nat → String)
    (hinj : Function.Injective hash) (iinj : Function.Injective iso)
    (d1 d2 : Nat) (t1 t2 : String) (hlen : t1.length = t2.length)
    (h : uid_for hash iso d1 t1 = uid_for hash iso d2 t2) : d1 = d2 ∧ t1 = t2 := by
  rw [uid_for, uid_for] at h
  have h1 := hinj (sAppend_cancel_right _ _ _ h)
  have h2 := sAppend_cancel_left _ _ _ h1
  have h3 := sAppend_inj_of_length _ _ _ _ h2
    (by rw [String.length_append, String.length_append, hlen])
  exact ⟨iinj h3.1, sAppend_cancel_left _ _ _ h3.2⟩

theorem runOutputs_now_decisions (hash : String → String) (iso : Nat → String)
    (P : Providers) (n1 n2 : String) (today N : Nat) :
    (runOutputs hash iso P n1 today N).map (fun x => x.1)
      = (runOutputs hash iso P n2 today N).map (fun x => x.1) := by
  unfold runOutputs
  rw [List.map_map, List.map_map]
  apply List.map_congr_left
  intro i _
  exact dayOutput_now_fst hash iso P (buildDayIdx P.holidays) n1 n2 (today + i)

theorem runOutputs_now_uids (hash : String → String) (iso : Nat → String)
    (P : Providers) (n1 n2 : String) (today N : Nat) :
    (runOutputs hash iso P n1 today N).map (fun x => x.2.uid)
      = (runOutputs hash iso P n2 today N).map (fun x => x.2.uid) := by
  unfold runOutputs
  rw [List.map_map, List.map_map]
  apply List.map_congr_left
  intro i _
  show (dayOutput hash iso P (buildDayIdx P.holidays) n1 (today + i)).2.uid
    = (dayOutput hash iso P (buildDayIdx P.holidays) n2 (today + i)).2.uid
  rw [dayOutput_uid, dayOutput_uid]

theorem runOutputs_uid_nodup (hash : String → String) (iso : Nat → String)
    (P : Providers) (now : String) (today N : Nat)
    (hinj : Function.Injective hash) (iinj : Function.Injective iso) :
    ((runOutputs hash iso P now today N).map (fun x => x.2.uid)).Nodup := by
  unfold runOutputs
  rw [List.map_map]
  apply List.Nodup.map_on ?_ (List.nodup_range (N + 1))
  intro i _ j _ hij
  have hij2 : (dayOutput hash iso P (buildDayIdx P.holidays) now (today + i)).2.uid
      = (dayOutput hash iso P (buildDayIdx P.holidays) now (today + j)).2.uid := hij
  rw [dayOutput_uid, dayOutput_uid] at hij2
  have hlen : (if is_workday P.adjusted P.holidays (today + i) then ("work") else ("free")).length
      = (if is_workday P.adjusted P.holidays (today + j) then ("work") else ("free")).length := by
    split <;> split <;> rfl
  have hd := (uid_for_inj_date hash iso hinj iinj _ _ _ _ hlen hij2).1
  omega

/-- C8: the identifier of each emitted entry is uid_for applied to the
entry's date and its day-type tag alone ("work"/"free" as decided by
isWorkday); re-running the emitter at a different timestamp with unchanged
provider outputs yields an identical decision sequence and identical
identifiers; and, provided the digest and date-rendering functions are
injective (the collision-free model of md5 and isoformat), no two entries of
one run share an identifier. -/
theorem c8_deterministic_identity :
    (∀ (hash : String → String) (iso : Nat → String) (P : Providers)
        (now1 now2 : String) (today N : Nat),
        (runOutputs hash iso P now1 today N).map (fun x => x.1)
            = (runOutputs hash iso P now2 today N).map (fun x => x.1)
          ∧ (runOutputs hash iso P now1 today N).map (fun x => x.2.uid)
            = (runOutputs hash iso P now2 today N).map (fun x => x.2.uid))
      ∧ (∀ (hash : String → String) (iso : Nat → String) (P : Providers)
          (now : String) (today N : Nat) (x : DayDecision × VEvent),
          x ∈ runOutputs hash iso P now today N →
          x.2.uid = uid_for hash iso x.1.date (if x.1.isWorkday then ("work") else ("free")))
      ∧ (∀ (hash : String → String) (iso : Nat → String) (P : Providers)
          (now : String) (today N : Nat),
          Function.Injective hash → Function.Injective iso →
          ((runOutputs hash iso P now today N).map (fun x => x.2.uid)).Nodup) := by
  refine ⟨?_, ?_, ?_⟩
  · intro hash iso P now1 now2 today N
    exact ⟨runOutputs_now_decisions hash iso P now1 now2 today N,
           runOutputs_now_uids hash iso P now1 now2 today N⟩
  · intro hash iso P now today N x hx
    rcases runOutputs_mem hash iso P now today N x hx with ⟨i, _, hxe⟩
    subst hxe
    rw [dayOutput_uid, dayOutput_date, dayOutput_isWorkday]
  · intro hash iso P now today N hinj iinj
    exact runOutputs_uid_nodup hash iso P now today N hinj iinj

/-- Witness for C8: with the identity digest and a unary injective date
rendering, a two-day run has pairwise-distinct identifiers. -/
theorem c8_deterministic_identity_witness :
    ((runOutputs (fun s => s) (fun n => String.mk (List.replicate n ('a')))
        ⟨[], [], [], []⟩ ("T") 1 1).map (fun x => x.2.uid)).Nodup :=
  c8_deterministic_identity.2.2 (fun s => s)
    (fun n => String.mk (List.replicate n ('a'))) ⟨[], [], [], []⟩ ("T") 1 1
    (fun _ _ h => h)
    (fun a b h => by simpa using congrArg (fun s => s.data.length) h)

/-! ### Run-level output shape -/

/-- Providers with an empty rotation table: every date of any window is
outside all rotation ranges. -/
def cxEmptyP : Providers := ⟨[], [], [], []⟩

/-- Providers whose single rotation rule covers dates 1..2 with a full
weekday map. -/
def cxFullP : Providers :=
  ⟨[⟨1, 2, [(0, 1, 6), (1, 2, 7), (2, 3, 8), (3, 4, 9), (4, 5, 0)]⟩], [], [], []⟩

/-- C6 counterexample: over the two-workday window [1, 2] (a Monday and a
Tuesday), the run with an empty rotation table marks both dates
rotationMatched = false, yet its run-level output - everything outside the
per-date VEVENT blocks, namely the six header lines and the final footer
line - is identical to that of a run whose rotation table covers the whole
window; the whole output is exactly header ++ per-date events ++ footer, so
no run-level "coverage insufficient" advisory is emitted anywhere. -/
theorem c6_counterexample :
    ((runOutputs (fun s => s) (fun n => Nat.repr n) cxEmptyP ("T") 1 1).map
        (fun x => x.1.rotationMatched) = [false, false])
      ∧ ((runOutputs (fun s => s) (fun n => Nat.repr n) cxFullP ("T") 1 1).map
          (fun x => x.1.rotationMatched) = [true, true])
      ∧ (calendarLines (fun s => s) (fun n => Nat.repr n) (fun n => Nat.repr n) cxEmptyP ("T") 1 1
          = headerLines
            ++ (runOutputs (fun s => s) (fun n => Nat.repr n) cxEmptyP ("T") 1 1).flatMap
                (fun x => eventLines (fun n => Nat.repr n) x.2)
            ++ [("END:VCALENDAR")])
      ∧ ((calendarLines (fun s => s) (fun n => Nat.repr n) (fun n => Nat.repr n) cxEmptyP ("T") 1 1).take 6
          = (calendarLines (fun s => s) (fun n => Nat.repr n) (fun n => Nat.repr n) cxFullP ("T") 1 1).take 6)
      ∧ ((calendarLines (fun s => s) (fun n => Nat.repr n) (fun n => Nat.repr n) cxEmptyP ("T") 1 1).getLast?
          = (calendarLines (fun s => s) (fun n => Nat.repr n) (fun n => Nat.repr n) cxFullP ("T") 1 1).getLast?) :=
  ⟨by decide, by decide, rfl, by decide, by decide⟩

/-- C6 amended: when a requested date falls outside all rotation ranges the
engine only marks it per-date - rotationMatched = false with the per-date
unmatched notice closing the event description; the run-level output is the
fixed six-line header and the fixed footer, for every provider
configuration, so no run-level "coverage insufficient" advisory is emitted. -/
theorem c6_no_run_level_advisory (hash : String → String) (iso ymd : Nat → String)
    (P : Providers) (now : String) (today N : Nat) :
    (calendarLines hash iso ymd P now today N
        = headerLines
          ++ (runOutputs hash iso P now today N).flatMap (fun x => eventLines ymd x.2)
          ++ [("END:VCALENDAR")])
      ∧ ((calendarLines hash iso ymd P now today N).take 6 = headerLines)
      ∧ ((calendarLines hash iso ymd P now today N).getLast? = some ("END:VCALENDAR"))
      ∧ (∀ x ∈ runOutputs hash iso P now today N,
          x.1.isWorkday = true →
          (rotation_for P.rotations x.1.date).bind
              (fun r => r.map.lookup (rotKey P.adjusted x.1.date)) = none →
          x.1.rotationMatched = false
            ∧ ∃ pre, x.2.descr = pre ++ unmatchedTail) := by
  refine ⟨rfl, ?_, ?_, ?_⟩
  · rw [calendarLines, List.append_assoc]
    have h6 : (6 : Nat) = headerLines.length := rfl
    rw [h6, List.take_left]
  · rw [calendarLines]
    rw [List.getLast?_append]
    rfl
  · intro x hx hw hn
    rcases runOutputs_mem hash iso P now today N x hx with ⟨i, _, hxe⟩
    subst hxe
    rw [dayOutput_isWorkday] at hw
    rw [dayOutput_date] at hn
    exact ⟨(dayOutput_unmatched hash iso P (buildDayIdx P.holidays) now (today + i) hw hn).1,
           (dayOutput_unmatched hash iso P (buildDayIdx P.holidays) now (today + i) hw hn).2.2⟩

/-- Witness for C6's amended theorem: date 1 with an empty rotation table is
marked unmatched and its description ends with the per-date notice. -/
theorem c6_no_run_level_advisory_witness :
    (dayOutput (fun s => s) (fun n => Nat.repr n) cxEmptyP
        (buildDayIdx cxEmptyP.holidays) ("T") (1 + 0)).1.rotationMatched = false
      ∧ ∃ pre, (dayOutput (fun s => s) (fun n => Nat.repr n) cxEmptyP
          (buildDayIdx cxEmptyP.holidays) ("T") (1 + 0)).2.descr = pre ++ unmatchedTail :=
  (c6_no_run_level_advisory (fun s => s) (fun n => Nat.repr n) (fun n => Nat.repr n)
      cxEmptyP ("T") 1 0).2.2.2
    (dayOutput (fun s => s) (fun n => Nat.repr n) cxEmptyP
      (buildDayIdx cxEmptyP.holidays) ("T") (1 + 0))
    (by simp [runOutputs]) (by decide) (by decide)
